import Mathlib

/-!
Verification development for the verifi-services event-ingestion pipeline
(indexer-service). The definitions below are a shallow embedding of the Go
source: `internal/indexer/listener.go` (poller, dispatcher, handlers),
the API-key rotator (`APIKeyRotator`), and the webhook client
(`internal/webhook/client.go`). Machine integers are modelled as `Nat`
(versions are `uint64`, far from overflow in all claims), float amounts as
`ℚ` (exact at the decimal-integer inputs the handlers receive), and the
database as explicit in-memory tables with the same conflict semantics as
the SQL the code issues.
-/

namespace VeriFi

/-- Loosely-typed value as found in an event's `Data map[string]interface{}`
after JSON decoding: the handlers only ever assert `string` and `bool`. -/
inductive GoVal where
  | vStr (s : String)
  | vBool (b : Bool)
deriving DecidableEq, Repr

/-- Event from the ledger (`type Event` in client.go): fully-qualified type
name and the loosely-typed data mapping (association list models the Go map;
keys are unique in practice, lookup takes the first binding). -/
structure Event where
  type : String
  data : List (String × GoVal)
deriving DecidableEq, Repr

/-- Transaction from the ledger (`type TransactionEvent`), restricted to the
fields the listener reads: `Version`, `Hash`, `Sender`, `Success`, `Type`,
`Timestamp`, `Events`. -/
structure Tx where
  version : String
  hash : String
  sender : String
  success : Bool
  txType : String
  timestamp : String
  events : List Event
deriving DecidableEq, Repr

/-- Go `v, _ := m[k].(string)`: missing key or non-string value degrades to
the zero value `""`. -/
def assertString (m : List (String × GoVal)) (k : String) : String :=
  match m.lookup k with
  | some (GoVal.vStr s) => s
  | _ => ""

/-- Go `v, _ := m[k].(bool)`: missing key or non-bool value degrades to
the zero value `false`. -/
def assertBool (m : List (String × GoVal)) (k : String) : Bool :=
  match m.lookup k with
  | some (GoVal.vBool b) => b
  | _ => false

/-- Decimal digits of a string, as a natural number; `none` when the string
is empty or holds a non-digit. -/
def digitsToNat (cs : List Char) : Option Nat :=
  if cs ≠ [] ∧ cs.all Char.isDigit then
    some (cs.foldl (fun n c => n * 10 + (c.toNat - 48)) 0)
  else none

/-- Model of `v, _ := strconv.ParseFloat(s, 64)` on the inputs this program
feeds it: unsigned decimal integer strings (fixed-point minor units below
2^53, hence exactly representable in a float64) parse to their exact value;
anything else (in particular the `""` fallback of a missing field) hits
ParseFloat's error path, and the discarded-error idiom leaves the zero
value `0`. -/
def parseGoFloat (s : String) : ℚ :=
  (((digitsToNat s.data).getD 0 : Nat) : ℚ)

/-- Character-list test: `pre` is a prefix of `hay`. -/
def hasPrefixChars : List Char → List Char → Bool
  | _, [] => true
  | [], _ :: _ => false
  | a :: as, b :: bs => a == b && hasPrefixChars as bs

/-- Character-list test: `needle` occurs contiguously inside `hay`. -/
def containsChars : List Char → List Char → Bool
  | hay, needle =>
    if hasPrefixChars hay needle then true
    else
      match hay with
      | [] => false
      | _ :: t => containsChars t needle

/-- Model of Go `strings.Contains(s, sub)`. -/
def goContains (s sub : String) : Bool :=
  containsChars s.data sub.data

/-- Model of Go `strings.Split(s, "::")` on character lists: greedy
left-to-right scan for the two-character separator. -/
def splitOnColons : List Char → List (List Char)
  | [] => [[]]
  | ':' :: ':' :: rest => [] :: splitOnColons rest
  | c :: rest =>
    match splitOnColons rest with
    | [] => [[c]]
    | g :: gs => (c :: g) :: gs

/-- Model of Go `strings.Split(s, "::")` producing strings. -/
def goSplitColons (s : String) : List String :=
  (splitOnColons s.data).map (fun g => String.mk g)

/-- Model of the Go string-slice expression `s[:n]`: defined only when
`n ≤ len(s)`; otherwise Go raises a `slice bounds out of range` runtime
panic, modelled as `none`. -/
def goSliceTo (s : String) (n : Nat) : Option String :=
  if n ≤ s.data.length then some (String.mk (s.data.take n)) else none

/-- Row of the `Activity` table as inserted by the mint/burn handlers
(the `gen_random_uuid()` id column is omitted: it carries no information). -/
structure Activity where
  txHash : String
  marketAddress : String
  userAddress : String
  action : String
  outcome : String
  amount : ℚ
  totalValue : ℚ
  timestamp : String
deriving DecidableEq, Repr

/-- Row of the `Market` table, restricted to the columns the listener
touches. -/
structure Market where
  marketAddress : String
  status : String
deriving DecidableEq, Repr

/-- Relational state the listener writes: the `Activity` and `Market`
tables. -/
structure DBState where
  activities : List Activity
  markets : List Market
deriving DecidableEq, Repr

/-- Empty database. -/
def dbEmpty : DBState := { activities := [], markets := [] }

/-- Whether the activity table already holds a row with the given
transaction hash (the unique key of the table). -/
def hasTxHash (t : List Activity) (h : String) : Bool :=
  t.any (fun r => r.txHash == h)

/-- Number of activity rows carrying the given transaction hash. -/
def countTxHash (t : List Activity) (h : String) : Nat :=
  (t.filter (fun r => r.txHash == h)).length

/-- Model of `INSERT INTO "Activity" ... ON CONFLICT ("txHash") DO NOTHING`:
append the row unless a row with the same hash is already present. -/
def insertActivity (t : List Activity) (r : Activity) : List Activity :=
  if hasTxHash t r.txHash then t else t ++ [r]

/-- Model of `UPDATE "Market" SET status = $1 WHERE "marketAddress" = $2`:
overwrite the status of every matching row, create none. -/
def updateMarketStatus (ms : List Market) (addr status : String) : List Market :=
  ms.map (fun m => if m.marketAddress == addr then { m with status := status } else m)

/-- Outcome of one handler invocation: normal return with `nil` error,
normal return with a non-nil error (logged by the dispatcher, processing
continues), or a Go runtime panic (unwinds the whole process — there is no
`recover` anywhere in the listener). -/
inductive HandlerResult where
  | ok
  | err (msg : String)
  | panicked (msg : String)
deriving DecidableEq, Repr

/-- An event handler: reads the event and transaction, transforms the
database state, reports how the invocation ended. -/
abbrev Handler := DBState → Event → Tx → DBState × HandlerResult

/-- Activity row built by `handleSharesMinted` (listener.go:289-329):
fields extracted with zero-value fallbacks, `apt_amount_in` scaled by 1e8,
`shares_out` scaled by 1e6, action `BUY`. -/
def mintRow (e : Event) (tx : Tx) : Activity :=
  { txHash := tx.hash
    marketAddress := assertString e.data "market_address"
    userAddress := assertString e.data "user"
    action := "BUY"
    outcome := if assertBool e.data "is_yes" then "YES" else "NO"
    amount := parseGoFloat (assertString e.data "shares_out") / 1000000
    totalValue := parseGoFloat (assertString e.data "apt_amount_in") / 100000000
    timestamp := tx.timestamp }

/-- Activity row built by `handleSharesBurned` (listener.go:366-404):
`shares_in` scaled by 1e6, `apt_amount_out` scaled by 1e8, action `SELL`. -/
def burnRow (e : Event) (tx : Tx) : Activity :=
  { txHash := tx.hash
    marketAddress := assertString e.data "market_address"
    userAddress := assertString e.data "user"
    action := "SELL"
    outcome := if assertBool e.data "is_yes" then "YES" else "NO"
    amount := parseGoFloat (assertString e.data "shares_in") / 1000000
    totalValue := parseGoFloat (assertString e.data "apt_amount_out") / 100000000
    timestamp := tx.timestamp }

/-- Model of `handleSharesMinted` (listener.go:283-359). The insert runs
first; the success log line then evaluates `marketAddress[:10]+"..."` and
`user[:10]+"..."`, which panics when either string is shorter than 10
bytes (in particular when the field was missing and degraded to `""`).
The DB pool is modelled as infallible, so the `failed to insert activity`
error path does not arise; the webhook send never touches the DB state. -/
def handleSharesMinted : Handler := fun st e tx =>
  let st' : DBState := { st with activities := insertActivity st.activities (mintRow e tx) }
  match goSliceTo (assertString e.data "market_address") 10 with
  | none => (st', HandlerResult.panicked "slice bounds out of range")
  | some _ =>
    match goSliceTo (assertString e.data "user") 10 with
    | none => (st', HandlerResult.panicked "slice bounds out of range")
    | some _ => (st', HandlerResult.ok)

/-- Model of `handleSharesBurned` (listener.go:361-434), symmetric to the
mint handler: insert the SELL row, then the log line slices
`marketAddress[:10]` and `user[:10]`. -/
def handleSharesBurned : Handler := fun st e tx =>
  let st' : DBState := { st with activities := insertActivity st.activities (burnRow e tx) }
  match goSliceTo (assertString e.data "market_address") 10 with
  | none => (st', HandlerResult.panicked "slice bounds out of range")
  | some _ =>
    match goSliceTo (assertString e.data "user") 10 with
    | none => (st', HandlerResult.panicked "slice bounds out of range")
    | some _ => (st', HandlerResult.ok)

/-- Model of `handleMarketCreated` (listener.go:436-490): extracts fields
(logging them whole, without slicing), writes nothing to the database,
optionally notifies the webhook, and returns nil. -/
def handleMarketCreated : Handler := fun st _ _ => (st, HandlerResult.ok)

/-- Model of `handleMarketResolved` (listener.go:492-518): the log line
slices `marketAddress[:10]` before the update statement runs, so a short or
missing market address panics with no state change; otherwise the `Market`
status is overwritten to `resolved`. -/
def handleMarketResolved : Handler := fun st e _ =>
  let addr := assertString e.data "market_address"
  match goSliceTo addr 10 with
  | none => (st, HandlerResult.panicked "slice bounds out of range")
  | some _ => ({ st with markets := updateMarketStatus st.markets addr "resolved" }, HandlerResult.ok)

/-- The handler registry built by `registerDefaultHandlers`
(listener.go:269-281), as the lookup function of the `eventHandlers` map. -/
def defaultHandlerFor (name : String) : Option Handler :=
  if name = "SharesMintedEvent" then some handleSharesMinted
  else if name = "SharesBurnedEvent" then some handleSharesBurned
  else if name = "MarketCreatedEvent" then some handleMarketCreated
  else if name = "MarketResolvedEvent" then some handleMarketResolved
  else none

/-- Final `::`-delimited segment of an event type
(`parts[len(parts)-1]` in processTx). -/
def eventNameOf (t : String) : String :=
  (goSplitColons t).getLastD ""

/-- Event loop of `processTx` (listener.go:202-255) over one transaction's
events. Returns the final database state, the list of events on which a
handler was actually invoked (in order), and `some msg` when an invocation
panicked — a panic unwinds immediately, skipping the remaining events.
Handler errors (`HandlerResult.err`) are logged and processing continues
with the next event. -/
def processEvents (m : String) (hf : String → Option Handler) (tx : Tx) :
    DBState → List Event → DBState × List Event × Option String
  | st, [] => (st, [], none)
  | st, e :: rest =>
    if goContains e.type m then
      if (goSplitColons e.type).length < 3 then processEvents m hf tx st rest
      else
        match hf (eventNameOf e.type) with
        | none => processEvents m hf tx st rest
        | some h =>
          match h st e tx with
          | (st', HandlerResult.panicked msg) => (st', [e], some msg)
          | (st', _) =>
            let r := processEvents m hf tx st' rest
            (r.1, e :: r.2.1, r.2.2)
    else processEvents m hf tx st rest

/-- Model of `processTx` (listener.go:186-258): skip entirely unless the
transaction succeeded and is a user transaction; otherwise run the event
loop. The Go function's own error return is always nil; the only abnormal
exit is a handler panic, reported in the third component. -/
def processTx (m : String) (hf : String → Option Handler) (st : DBState) (tx : Tx) :
    DBState × List Event × Option String :=
  if !tx.success || tx.txType != "user_transaction" then (st, [], none)
  else processEvents m hf tx st tx.events

/-- Batch size guard of the poll loop (listener.go:134-137): the batch limit
is 100, clipped to `end - start + 1` when the remaining range is shorter. -/
def pollLimit (start e : Nat) : Nat :=
  if start + 100 > e then e - start + 1 else 100

/-- Fuel-indexed unfolding of the batch loop `for start <= end` in `poll`
(listener.go:133-171): the list of `(start, limit)` ranges fetched, in
order. Each iteration advances `start` by at least 1, so fuel
`e + 1 - start` always suffices (proved below as `batchRangesAux_canon`). -/
def batchRangesAux : Nat → Nat → Nat → List (Nat × Nat)
  | 0, _, _ => []
  | fuel + 1, start, e =>
    if start ≤ e then
      (start, pollLimit start e) :: batchRangesAux fuel (start + pollLimit start e) e
    else []

/-- Ranges fetched by one poll pass over `[start, e]`. -/
def batchRanges (start e : Nat) : List (Nat × Nat) :=
  batchRangesAux (e + 1 - start) start e

/-- In-memory and persisted poller state: `lastVersion` is the
`EventListener.lastVersion` field, `persisted` the value of the
`last_indexed_version` row written by `saveLastVersion`, `db` the tables the
handlers write. -/
structure PollState where
  lastVersion : Nat
  persisted : Nat
  db : DBState

/-- Environment of one poll tick: the answer of `GetLatestLedgerInfo`,
the answer of `GetTransactionsByVersionRange` for each requested
`(start, limit)`, and whether the `saveLastVersion` upsert succeeds. -/
structure TickInput where
  latest : Except Unit Nat
  fetch : Nat → Nat → Except Unit (List Tx)
  saveOk : Bool

/-- How one call of `poll` ends: `ok` is a nil return (including the
nothing-new early return and the logged-but-swallowed save failure),
`ledgerInfoFailed` and `fetchFailed` are the two `return err` paths, and
`panicked` a runtime panic escaping a handler. -/
inductive PollResult where
  | ok
  | ledgerInfoFailed
  | fetchFailed
  | panicked (msg : String)
deriving DecidableEq, Repr

/-- Transaction loop of `poll` (listener.go:158-168) over one fetched
batch: `processTx` never returns a non-nil error, so the `continue` branch
is the only branch; a handler panic unwinds out of the loop. -/
def processBatch (m : String) (hf : String → Option Handler) :
    DBState → List Tx → DBState × Option String
  | st, [] => (st, none)
  | st, tx :: rest =>
    match processTx m hf st tx with
    | (st', _, some msg) => (st', some msg)
    | (st', _, none) => processBatch m hf st' rest

/-- Batch loop of `poll` (listener.go:133-171): fetch each range, abort
with an error on a fetch failure (listener.go:144-151), process the fetched
transactions, continue. -/
def runRanges (m : String) (hf : String → Option Handler)
    (fetch : Nat → Nat → Except Unit (List Tx)) :
    DBState → List (Nat × Nat) → DBState × PollResult
  | st, [] => (st, PollResult.ok)
  | st, (s, lim) :: rest =>
    match fetch s lim with
    | Except.error _ => (st, PollResult.fetchFailed)
    | Except.ok txs =>
      match processBatch m hf st txs with
      | (st', some msg) => (st', PollResult.panicked msg)
      | (st', none) => runRanges m hf fetch st' rest

/-- Model of one `poll` call (listener.go:98-184). A ledger-info failure or
batch-fetch failure returns the error with `lastVersion` untouched; after a
fully-walked range `lastVersion` is set to the observed latest version and
`saveLastVersion` persists it — a save failure is only logged, `poll` still
returns nil. -/
def pollTick (m : String) (hf : String → Option Handler)
    (ps : PollState) (inp : TickInput) : PollState × PollResult :=
  match inp.latest with
  | Except.error _ => (ps, PollResult.ledgerInfoFailed)
  | Except.ok latest =>
    if latest ≤ ps.lastVersion then (ps, PollResult.ok)
    else
      match runRanges m hf inp.fetch ps.db (batchRanges (ps.lastVersion + 1) latest) with
      | (db', PollResult.ok) =>
        ({ lastVersion := latest
           persisted := if inp.saveOk then latest else ps.persisted
           db := db' }, PollResult.ok)
      | (db', res) => ({ ps with db := db' }, res)

/-- The ticker loop of `Start` (listener.go:85-95): poll errors are logged
and the loop continues with the next tick; a panic crashes the process. -/
def runTicks (m : String) (hf : String → Option Handler) :
    PollState → List TickInput → PollState
  | ps, [] => ps
  | ps, i :: is =>
    match pollTick m hf ps i with
    | (ps', PollResult.panicked _) => ps'
    | (ps', _) => runTicks m hf ps' is

/-- State of the `APIKeyRotator`: both pools, the single shared
`currentIdx` cursor, the `lastUsed` map (association list, keyed by
credential value, times in nanoseconds) and `minDelay`. -/
structure APIKeyRotator where
  aptosKeys : List String
  noditKeys : List String
  currentIdx : Nat
  lastUsed : List (String × Nat)
  minDelay : Nat

/-- Model of `NewAPIKeyRotator`: empty map, cursor 0, `minDelay` 100ms
(in nanoseconds). -/
def newAPIKeyRotator (aptosKeys noditKeys : List String) : APIKeyRotator :=
  { aptosKeys := aptosKeys
    noditKeys := noditKeys
    currentIdx := 0
    lastUsed := []
    minDelay := 100000000 }

/-- Association-list update, modelling `r.lastUsed[key] = t`. -/
def updateAssoc : List (String × Nat) → String → Nat → List (String × Nat)
  | [], k, v => [(k, v)]
  | (k', v') :: rest, k, v =>
    if k' == k then (k, v) :: rest else (k', v') :: updateAssoc rest k v

/-- Shared body of the two getters: pick `pool[idx % len(pool)]`, and if
that key was used less than `minDelay` ago, sleep until `minDelay` has
elapsed since its last use. Wall-clock time is passed in explicitly
(`now` = the `time.Since`/`time.Now` reading at entry, monotone nanosecond
clock); the returned `Nat` is the time at which the call returns, which is
also the value the Go code stores via `r.lastUsed[key] = time.Now()` after
the sleep. -/
def acquireFrom (keys : List String) (idx : Nat) (lastUsed : List (String × Nat))
    (minDelay now : Nat) : String × Nat :=
  let key := keys.getD (idx % keys.length) ""
  let ret :=
    match lastUsed.lookup key with
    | some last => if now - last < minDelay then last + minDelay else now
    | none => now
  (key, ret)

/-- Model of `GetNextAptosKey` (config source, lines 100-124): empty pool
returns `""` at once; otherwise select by `currentIdx % len`, throttle,
record the new last-used time, and increment the shared cursor. Returns
(new rotator state, key, return time). -/
def getNextAptosKey (r : APIKeyRotator) (now : Nat) : APIKeyRotator × String × Nat :=
  if r.aptosKeys.length = 0 then (r, "", now)
  else
    let a := acquireFrom r.aptosKeys r.currentIdx r.lastUsed r.minDelay now
    ({ r with lastUsed := updateAssoc r.lastUsed a.1 a.2
              currentIdx := r.currentIdx + 1 }, a.1, a.2)

/-- Model of `GetNextNoditKey` (config source, lines 126-149): identical to
the Aptos getter except that the source never increments `currentIdx`. -/
def getNextNoditKey (r : APIKeyRotator) (now : Nat) : APIKeyRotator × String × Nat :=
  if r.noditKeys.length = 0 then (r, "", now)
  else
    let a := acquireFrom r.noditKeys r.currentIdx r.lastUsed r.minDelay now
    ({ r with lastUsed := updateAssoc r.lastUsed a.1 a.2 }, a.1, a.2)

/-- Keys returned by successive `GetNextNoditKey` calls at the given call
times. -/
def noditKeySeq : APIKeyRotator → List Nat → List String
  | _, [] => []
  | r, t :: ts =>
    let a := getNextNoditKey r t
    a.2.1 :: noditKeySeq a.1 ts

/-- Wall-clock instant: whole seconds and sub-second nanoseconds. -/
structure GoTime where
  sec : Nat
  nsec : Nat
deriving DecidableEq, Repr

/-- Outgoing webhook envelope built by `SendEvent` (client.go:43-54):
`event.type`, `event.data`, `transaction.hash`, `transaction.sender`, and
`transaction.timestamp`. The timestamp field is
`time.Now().UTC().Format(time.RFC3339)`; RFC3339 renders whole seconds
only, so the field is modelled as the seconds of the sending clock —
the rendering is injective in (and a function of) `sec` alone. -/
structure WebhookPayload where
  eventType : String
  eventData : List (String × GoVal)
  txHash : String
  sender : String
  timestampSec : Nat
deriving DecidableEq, Repr

/-- Model of `WebhookClient.SendEvent` payload construction
(client.go:43-54): the transaction timestamp is taken from the wall clock
`now` at the moment of sending; no transaction timestamp is among the
parameters. -/
def sendEventPayload (eventType : String) (eventData : List (String × GoVal))
    (txHash sender : String) (now : GoTime) : WebhookPayload :=
  { eventType := eventType
    eventData := eventData
    txHash := txHash
    sender := sender
    timestampSec := now.sec }

/-- The `eventData` map assembled by `handleSharesMinted` before its
webhook call (listener.go:345-350). -/
def mintWebhookEventData (e : Event) : List (String × GoVal) :=
  [("market_address", GoVal.vStr (assertString e.data "market_address")),
   ("buyer", GoVal.vStr (assertString e.data "user")),
   ("is_yes_outcome", GoVal.vBool (assertBool e.data "is_yes")),
   ("apt_amount_in", GoVal.vStr (assertString e.data "apt_amount_in")),
   ("shares_out", GoVal.vStr (assertString e.data "shares_out"))]

/-- The webhook payload sent by `handleSharesMinted`
(listener.go:344-356): `SendEvent(event.Type, eventData, tx.Hash,
tx.Sender)` at wall-clock `now`. -/
def mintWebhookSend (e : Event) (tx : Tx) (now : GoTime) : WebhookPayload :=
  sendEventPayload e.type (mintWebhookEventData e) tx.hash tx.sender now

/-! Concrete fixtures used by the witnesses and counterexamples. -/

/-- A configured module address. -/
def modAddr : String := "0xabcdef1234"

/-- Well-formed mint event with the amounts of the end-to-end spec example:
`apt_amount_in="100000000"`, `shares_out="2000000"`, `is_yes=true`. -/
def mintEvent9 : Event :=
  { type := "0xabcdef1234::verifi_protocol::SharesMintedEvent"
    data := [("market_address", GoVal.vStr "0xmarket0001"),
             ("user", GoVal.vStr "0xuser000001"),
             ("apt_amount_in", GoVal.vStr "100000000"),
             ("shares_out", GoVal.vStr "2000000"),
             ("is_yes", GoVal.vBool true)] }

/-- Successful user transaction carrying `mintEvent9`. -/
def tx9 : Tx :=
  { version := "101"
    hash := "0xhash9"
    sender := "0xsender9"
    success := true
    txType := "user_transaction"
    timestamp := "2024-01-01T00:00:00Z"
    events := [mintEvent9] }

/-- Second well-formed mint event (distinct market and user). -/
def mintEventB : Event :=
  { type := "0xabcdef1234::verifi_protocol::SharesMintedEvent"
    data := [("market_address", GoVal.vStr "0xmarket0002"),
             ("user", GoVal.vStr "0xuser000002"),
             ("apt_amount_in", GoVal.vStr "50000000"),
             ("shares_out", GoVal.vStr "1000000"),
             ("is_yes", GoVal.vBool false)] }

/-- Transaction carrying `mintEventB`. -/
def txB : Tx :=
  { version := "102"
    hash := "0xhashB"
    sender := "0xsenderB"
    success := true
    txType := "user_transaction"
    timestamp := "2024-01-01T00:00:05Z"
    events := [mintEventB] }

/-- Handler that always returns a non-nil error, for exercising the
error-isolation path. -/
def errHandler : Handler := fun st _ _ => (st, HandlerResult.err "boom")

/-- Registry with an always-erroring handler on top of the defaults. -/
def testHandlerFor (name : String) : Option Handler :=
  if name = "FailingEvent" then some errHandler else defaultHandlerFor name

/-- Event routed to the always-erroring handler. -/
def failEvent : Event :=
  { type := "0xabcdef1234::verifi_protocol::FailingEvent", data := [] }

/-- Transaction whose only event makes its handler return an error. -/
def txFail : Tx :=
  { version := "103"
    hash := "0xhashFail"
    sender := "0xsenderF"
    success := true
    txType := "user_transaction"
    timestamp := "2024-01-01T00:00:02Z"
    events := [failEvent] }

/-- Batch in which the middle transaction's handler errors. -/
def batchC4 : List Tx := [tx9, txFail, txB]

/-- Tick delivering `batchC4` in a single range `(1, 3)`. -/
def tickC4 : TickInput :=
  { latest := Except.ok 3
    fetch := fun s l => if s = 1 ∧ l = 3 then Except.ok batchC4 else Except.ok []
    saveOk := true }

/-- Mint event with the `market_address` field missing entirely. -/
def mintEventNoMarket : Event :=
  { type := "0xabcdef1234::verifi_protocol::SharesMintedEvent"
    data := [("user", GoVal.vStr "0xuser000001"),
             ("apt_amount_in", GoVal.vStr "100000000"),
             ("shares_out", GoVal.vStr "2000000"),
             ("is_yes", GoVal.vBool true)] }

/-- Burn event with the `market_address` field missing entirely. -/
def burnEventNoMarket : Event :=
  { type := "0xabcdef1234::verifi_protocol::SharesBurnedEvent"
    data := [("user", GoVal.vStr "0xuser000001"),
             ("apt_amount_out", GoVal.vStr "100000000"),
             ("shares_in", GoVal.vStr "2000000"),
             ("is_yes", GoVal.vBool true)] }

/-- Resolution event with an empty `market_address`. -/
def resolveEventNoMarket : Event :=
  { type := "0xabcdef1234::verifi_protocol::MarketResolvedEvent"
    data := [("market_address", GoVal.vStr ""),
             ("outcome", GoVal.vStr "YES")] }

/-- Transaction used when invoking handlers on the malformed events. -/
def txMalformed : Tx :=
  { version := "104"
    hash := "0xhashMal"
    sender := "0xsenderM"
    success := true
    txType := "user_transaction"
    timestamp := "2024-01-01T00:00:03Z"
    events := [mintEventNoMarket] }

/-- Event whose type has only two `::`-delimited segments but contains the
module address and ends in a registered handler name. -/
def shortTypeEvent : Event :=
  { type := "0xabcdef1234::SharesMintedEvent"
    data := [("market_address", GoVal.vStr "0xmarket0001"),
             ("user", GoVal.vStr "0xuser000001"),
             ("apt_amount_in", GoVal.vStr "100000000"),
             ("shares_out", GoVal.vStr "2000000"),
             ("is_yes", GoVal.vBool true)] }

/-- Successful user transaction carrying only `shortTypeEvent`. -/
def txShort : Tx :=
  { version := "105"
    hash := "0xhashShort"
    sender := "0xsenderS"
    success := true
    txType := "user_transaction"
    timestamp := "2024-01-01T00:00:04Z"
    events := [shortTypeEvent] }

/-- Poller state at checkpoint 0 with empty tables. -/
def psZero : PollState := { lastVersion := 0, persisted := 0, db := dbEmpty }

/-- Tick whose every batch fetch succeeds (empty batches) but whose
checkpoint save fails. -/
def tickSaveFail : TickInput :=
  { latest := Except.ok 1, fetch := fun _ _ => Except.ok [], saveOk := false }

/-- Tick whose every batch fetch and whose save succeed. -/
def tickSaveOk : TickInput :=
  { latest := Except.ok 1, fetch := fun _ _ => Except.ok [], saveOk := true }

/-- Tick whose first batch fetch fails. -/
def tickFetchFail : TickInput :=
  { latest := Except.ok 1, fetch := fun _ _ => Except.error (), saveOk := true }

/-- Rotator with two Nodit keys and no Aptos keys. -/
def rotator7 : APIKeyRotator := newAPIKeyRotator [] ["k1", "k2"]

/-- Rotator with one Aptos key and two Nodit keys. -/
def rotatorMix : APIKeyRotator := newAPIKeyRotator ["a1"] ["k1", "k2"]

/-- Rotator with a single-credential Nodit pool. -/
def rotator8 : APIKeyRotator := newAPIKeyRotator [] ["k1"]

/-- Copy of `tx9` differing only in its ledger timestamp. -/
def tx9Alt : Tx := { tx9 with timestamp := "2030-01-01T00:00:00Z" }

/-! Basic lemmas about the activity table. -/

/-- Membership in an extended table. -/
theorem hasTxHash_append (t : List Activity) (r : Activity) (h : String) :
    hasTxHash (t ++ [r]) h = (hasTxHash t h || (r.txHash == h)) := by
  simp [hasTxHash]

/-- Inserting a row whose hash is already present is a no-op. -/
theorem insertActivity_of_has {t : List Activity} {r : Activity}
    (h : hasTxHash t r.txHash = true) : insertActivity t r = t := by
  simp [insertActivity, h]

/-- After inserting a row its hash is present. -/
theorem hasTxHash_insert (t : List Activity) (r : Activity) :
    hasTxHash (insertActivity t r) r.txHash = true := by
  by_cases h : hasTxHash t r.txHash = true
  · simp [insertActivity, h]
  · simp [insertActivity, h, hasTxHash_append]

/-- Inserting into a table not containing the hash appends the row. -/
theorem insertActivity_of_fresh {t : List Activity} {r : Activity}
    (h : hasTxHash t r.txHash = false) : insertActivity t r = t ++ [r] := by
  simp [insertActivity, h]

/-- A table without the hash contributes no rows to the count. -/
theorem countTxHash_of_not_has {t : List Activity} {h : String}
    (hh : hasTxHash t h = false) : countTxHash t h = 0 := by
  simp only [hasTxHash, List.any_eq_false] at hh
  simp only [countTxHash, List.length_eq_zero, List.filter_eq_nil_iff]
  intro a ha
  simpa using hh a ha

/-- Count over an extended table. -/
theorem countTxHash_append (t : List Activity) (r : Activity) (h : String) :
    countTxHash (t ++ [r]) h =
      countTxHash t h + (if r.txHash == h then 1 else 0) := by
  simp only [countTxHash, List.filter_append]
  split <;> simp_all

/-! Characterization of the four default handlers, used for the
idempotence argument. -/

/-- The mint handler's database effect is exactly the keyed insert of its
BUY row (whatever the logging outcome). -/
theorem handleSharesMinted_db (st : DBState) (e : Event) (tx : Tx) :
    (handleSharesMinted st e tx).1 =
      { st with activities := insertActivity st.activities (mintRow e tx) } := by
  unfold handleSharesMinted
  repeat' split
  all_goals rfl

/-- The burn handler's database effect is exactly the keyed insert of its
SELL row. -/
theorem handleSharesBurned_db (st : DBState) (e : Event) (tx : Tx) :
    (handleSharesBurned st e tx).1 =
      { st with activities := insertActivity st.activities (burnRow e tx) } := by
  unfold handleSharesBurned
  repeat' split
  all_goals rfl

/-- The resolution handler never touches the activity table. -/
theorem handleMarketResolved_activities (st : DBState) (e : Event) (tx : Tx) :
    (handleMarketResolved st e tx).1.activities = st.activities := by
  cases hsl : goSliceTo (assertString e.data "market_address") 10 <;>
    simp [handleMarketResolved, hsl]

/-- Every registered default handler either leaves the activity table
unchanged or performs the keyed insert of one row carrying the processed
transaction's hash. -/
theorem defaultHandler_effect {name : String} {h : Handler}
    (hh : defaultHandlerFor name = some h) (st : DBState) (e : Event) (tx : Tx) :
    (h st e tx).1.activities = st.activities ∨
    ∃ r, r.txHash = tx.hash ∧
      (h st e tx).1.activities = insertActivity st.activities r := by
  unfold defaultHandlerFor at hh
  split_ifs at hh <;> rw [Option.some.injEq] at hh <;> subst hh
  · exact Or.inr ⟨mintRow e tx, rfl, by rw [handleSharesMinted_db]⟩
  · exact Or.inr ⟨burnRow e tx, rfl, by rw [handleSharesBurned_db]⟩
  · exact Or.inl rfl
  · exact Or.inl (handleMarketResolved_activities st e tx)

/-- Both the activity-table effect and the invocation outcome of a default
handler are determined by the incoming activity table (the `Market` table
never feeds back into them). -/
theorem defaultHandler_determined {name : String} {h : Handler}
    (hh : defaultHandlerFor name = some h) (st st' : DBState) (e : Event) (tx : Tx)
    (hst : st.activities = st'.activities) :
    (h st e tx).1.activities = (h st' e tx).1.activities ∧
    (h st e tx).2 = (h st' e tx).2 := by
  unfold defaultHandlerFor at hh
  split_ifs at hh <;> rw [Option.some.injEq] at hh <;> subst hh
  · refine ⟨?_, ?_⟩
    · rw [handleSharesMinted_db, handleSharesMinted_db]
      simp [hst]
    · unfold handleSharesMinted
      repeat' split
      all_goals rfl
  · refine ⟨?_, ?_⟩
    · rw [handleSharesBurned_db, handleSharesBurned_db]
      simp [hst]
    · unfold handleSharesBurned
      repeat' split
      all_goals rfl
  · exact ⟨hst, rfl⟩
  · refine ⟨?_, ?_⟩
    · rw [handleMarketResolved_activities, handleMarketResolved_activities]
      exact hst
    · cases hsl : goSliceTo (assertString e.data "market_address") 10 <;>
        simp [handleMarketResolved, hsl]

/-! Behaviour of the event loop with the default handlers. -/

/-- Once the processed transaction's hash is in the activity table, the
event loop cannot change the table: every insert it can perform is keyed
on that same hash and conflicts. -/
theorem processEvents_stable (m : String) (tx : Tx) :
    ∀ (es : List Event) (st : DBState), hasTxHash st.activities tx.hash = true →
      (processEvents m defaultHandlerFor tx st es).1.activities = st.activities := by
  intro es
  induction es with
  | nil => intro st _; rfl
  | cons e rest ih =>
    intro st h
    simp only [processEvents]
    by_cases hc : goContains e.type m = true
    · simp only [hc, if_true]
      by_cases hlen : (goSplitColons e.type).length < 3
      · simp only [if_pos hlen]
        exact ih st h
      · simp only [if_neg hlen]
        cases hreg : defaultHandlerFor (eventNameOf e.type) with
        | none => exact ih st h
        | some hdl =>
          rcases hstep : hdl st e tx with ⟨st', res⟩
          have heff := defaultHandler_effect hreg st e tx
          rw [hstep] at heff
          have hact : st'.activities = st.activities := by
            rcases heff with h1 | ⟨r, hr, h2⟩
            · exact h1
            · rw [h2, insertActivity_of_has (by rw [hr]; exact h)]
          cases res with
          | panicked msg =>
            simp only [hstep]
            exact hact
          | ok =>
            simp only [hstep]
            rw [ih st' (by rw [hact]; exact h)]
            exact hact
          | err msg =>
            simp only [hstep]
            rw [ih st' (by rw [hact]; exact h)]
            exact hact
    · simp only [Bool.not_eq_true] at hc
      simp only [hc, Bool.false_eq_true, if_false]
      exact ih st h

/-- Starting from a table without the transaction's hash, the event loop
either leaves the activity table unchanged or appends exactly one row
carrying that hash. -/
theorem processEvents_fresh_shape (m : String) (tx : Tx) :
    ∀ (es : List Event) (st : DBState), hasTxHash st.activities tx.hash = false →
      (processEvents m defaultHandlerFor tx st es).1.activities = st.activities ∨
      ∃ r, r.txHash = tx.hash ∧
        (processEvents m defaultHandlerFor tx st es).1.activities = st.activities ++ [r] := by
  intro es
  induction es with
  | nil => intro st _; exact Or.inl rfl
  | cons e rest ih =>
    intro st h
    simp only [processEvents]
    by_cases hc : goContains e.type m = true
    · simp only [hc, if_true]
      by_cases hlen : (goSplitColons e.type).length < 3
      · simp only [if_pos hlen]
        exact ih st h
      · simp only [if_neg hlen]
        cases hreg : defaultHandlerFor (eventNameOf e.type) with
        | none => exact ih st h
        | some hdl =>
          rcases hstep : hdl st e tx with ⟨st', res⟩
          have heff := defaultHandler_effect hreg st e tx
          rw [hstep] at heff
          rcases heff with h1 | ⟨r, hr, h2⟩
          · -- handler left the table unchanged
            cases res with
            | panicked msg =>
              simp only [hstep]
              exact Or.inl h1
            | ok =>
              simp only [hstep]
              rcases ih st' (by rw [h1]; exact h) with h3 | ⟨r, hr3, h3⟩
              · exact Or.inl (by rw [h3, h1])
              · exact Or.inr ⟨r, hr3, by rw [h3, h1]⟩
            | err msg =>
              simp only [hstep]
              rcases ih st' (by rw [h1]; exact h) with h3 | ⟨r, hr3, h3⟩
              · exact Or.inl (by rw [h3, h1])
              · exact Or.inr ⟨r, hr3, by rw [h3, h1]⟩
          · -- handler inserted a row keyed on the transaction hash
            have happ : st'.activities = st.activities ++ [r] := by
              rw [h2, insertActivity_of_fresh (by rw [hr]; exact h)]
            have hhas' : hasTxHash st'.activities tx.hash = true := by
              rw [happ, hasTxHash_append, hr]
              simp
            cases res with
            | panicked msg =>
              simp only [hstep]
              exact Or.inr ⟨r, hr, happ⟩
            | ok =>
              simp only [hstep]
              rw [processEvents_stable m tx rest st' hhas']
              exact Or.inr ⟨r, hr, happ⟩
            | err msg =>
              simp only [hstep]
              rw [processEvents_stable m tx rest st' hhas']
              exact Or.inr ⟨r, hr, happ⟩
    · simp only [Bool.not_eq_true] at hc
      simp only [hc, Bool.false_eq_true, if_false]
      exact ih st h

/-- The activity table produced by the event loop depends on the incoming
state only through its activity table. -/
theorem processEvents_determined (m : String) (tx : Tx) :
    ∀ (es : List Event) (st st2 : DBState), st.activities = st2.activities →
      (processEvents m defaultHandlerFor tx st es).1.activities =
        (processEvents m defaultHandlerFor tx st2 es).1.activities := by
  intro es
  induction es with
  | nil => intro st st2 hst; exact hst
  | cons e rest ih =>
    intro st st2 hst
    simp only [processEvents]
    by_cases hc : goContains e.type m = true
    · simp only [hc, if_true]
      by_cases hlen : (goSplitColons e.type).length < 3
      · simp only [if_pos hlen]
        exact ih st st2 hst
      · simp only [if_neg hlen]
        cases hreg : defaultHandlerFor (eventNameOf e.type) with
        | none => exact ih st st2 hst
        | some hdl =>
          rcases hstep : hdl st e tx with ⟨st', res⟩
          rcases hstep2 : hdl st2 e tx with ⟨st2', res2⟩
          have hdet := defaultHandler_determined hreg st st2 e tx hst
          rw [hstep, hstep2] at hdet
          rcases hdet with ⟨hdact, hdres⟩
          subst hdres
          cases res with
          | panicked msg =>
            simp only [hstep, hstep2]
            exact hdact
          | ok =>
            simp only [hstep, hstep2]
            exact ih st' st2' hdact
          | err msg =>
            simp only [hstep, hstep2]
            exact ih st' st2' hdact
    · simp only [Bool.not_eq_true] at hc
      simp only [hc, Bool.false_eq_true, if_false]
      exact ih st st2 hst

/-- Dispatcher-level version of `processEvents_stable`. -/
theorem processTx_stable (m : String) (st : DBState) (tx : Tx)
    (h : hasTxHash st.activities tx.hash = true) :
    (processTx m defaultHandlerFor st tx).1.activities = st.activities := by
  unfold processTx
  split
  · rfl
  · exact processEvents_stable m tx tx.events st h

/-- Dispatcher-level version of `processEvents_fresh_shape`. -/
theorem processTx_fresh_shape (m : String) (st : DBState) (tx : Tx)
    (h : hasTxHash st.activities tx.hash = false) :
    (processTx m defaultHandlerFor st tx).1.activities = st.activities ∨
    ∃ r, r.txHash = tx.hash ∧
      (processTx m defaultHandlerFor st tx).1.activities = st.activities ++ [r] := by
  unfold processTx
  split
  · exact Or.inl rfl
  · exact processEvents_fresh_shape m tx tx.events st h

/-- Dispatcher-level version of `processEvents_determined`. -/
theorem processTx_determined (m : String) (st st2 : DBState) (tx : Tx)
    (hst : st.activities = st2.activities) :
    (processTx m defaultHandlerFor st tx).1.activities =
      (processTx m defaultHandlerFor st2 tx).1.activities := by
  unfold processTx
  split
  · exact hst
  · exact processEvents_determined m tx tx.events st st2 hst

/-- Claim C1: replaying a transaction through the Dispatcher and the
default handlers is idempotent on the activity table — the second pass
changes nothing, and the table holds at most one row keyed on the
transaction's hash, because both the mint and the burn handler write with
an insert-or-ignore keyed uniquely on that hash. -/
theorem dispatcherReplayIdempotent (m : String) (st : DBState) (tx : Tx)
    (hfresh : hasTxHash st.activities tx.hash = false) :
    (processTx m defaultHandlerFor (processTx m defaultHandlerFor st tx).1 tx).1.activities =
      (processTx m defaultHandlerFor st tx).1.activities ∧
    countTxHash
      (processTx m defaultHandlerFor (processTx m defaultHandlerFor st tx).1 tx).1.activities
      tx.hash ≤ 1 := by
  rcases processTx_fresh_shape m st tx hfresh with hcase | ⟨r, hr, hcase⟩
  · have hdet := processTx_determined m (processTx m defaultHandlerFor st tx).1 st tx hcase
    refine ⟨?_, ?_⟩
    · rw [hdet]
    · rw [hdet, hcase, countTxHash_of_not_has hfresh]
      omega
  · have hhas : hasTxHash (processTx m defaultHandlerFor st tx).1.activities tx.hash = true := by
      rw [hcase, hasTxHash_append, hr]
      simp
    have hstab := processTx_stable m (processTx m defaultHandlerFor st tx).1 tx hhas
    refine ⟨hstab, ?_⟩
    rw [hstab, hcase, countTxHash_append, countTxHash_of_not_has hfresh, hr]
    simp

/-- Witness for C1 at a concrete mint transaction on an empty table. -/
theorem dispatcherReplayIdempotent_witness :
    hasTxHash dbEmpty.activities tx9.hash = false ∧
    ((processTx modAddr defaultHandlerFor
        (processTx modAddr defaultHandlerFor dbEmpty tx9).1 tx9).1.activities =
      (processTx modAddr defaultHandlerFor dbEmpty tx9).1.activities ∧
    countTxHash
      (processTx modAddr defaultHandlerFor
        (processTx modAddr defaultHandlerFor dbEmpty tx9).1 tx9).1.activities
      tx9.hash ≤ 1) :=
  ⟨by decide, dispatcherReplayIdempotent modAddr dbEmpty tx9 (by decide)⟩

/-! Dispatch conditions of the event loop. -/

/-- Membership in the invocation trace of the event loop: provided no
invocation panicked, a handler runs on an event exactly when the event is
in the list, its type contains the module address, its type has at least
three segments, and a handler is registered under its final segment. -/
theorem processEvents_mem (m : String) (hf : String → Option Handler) (tx : Tx) :
    ∀ (es : List Event) (st : DBState) (e : Event),
      (processEvents m hf tx st es).2.2 = none →
      (e ∈ (processEvents m hf tx st es).2.1 ↔
        e ∈ es ∧ goContains e.type m = true ∧ 3 ≤ (goSplitColons e.type).length ∧
        (hf (eventNameOf e.type)).isSome = true) := by
  intro es
  induction es with
  | nil =>
    intro st e _
    simp [processEvents]
  | cons a rest ih =>
    intro st e hnp
    simp only [processEvents] at hnp ⊢
    by_cases hc : goContains a.type m = true
    · simp only [hc, if_true] at hnp ⊢
      by_cases hlen : (goSplitColons a.type).length < 3
      · simp only [if_pos hlen] at hnp ⊢
        rw [ih st e hnp]
        constructor
        · rintro ⟨he, hrest⟩
          exact ⟨List.mem_cons_of_mem _ he, hrest⟩
        · rintro ⟨he, h1, h2, h3⟩
          rcases List.mem_cons.mp he with rfl | he'
          · omega
          · exact ⟨he', h1, h2, h3⟩
      · simp only [if_neg hlen] at hnp ⊢
        cases hreg : hf (eventNameOf a.type) with
        | none =>
          simp only [hreg] at hnp ⊢
          rw [ih st e hnp]
          constructor
          · rintro ⟨he, hrest⟩
            exact ⟨List.mem_cons_of_mem _ he, hrest⟩
          · rintro ⟨he, h1, h2, h3⟩
            rcases List.mem_cons.mp he with rfl | he'
            · rw [hreg] at h3
              simp at h3
            · exact ⟨he', h1, h2, h3⟩
        | some hdl =>
          simp only [hreg] at hnp ⊢
          rcases hstep : hdl st a tx with ⟨st', res⟩
          cases res with
          | panicked msg =>
            simp only [hstep] at hnp
            cases hnp
          | ok =>
            simp only [hstep] at hnp ⊢
            rw [List.mem_cons, ih st' e hnp, List.mem_cons]
            constructor
            · rintro (rfl | ⟨he, hC⟩)
              · exact ⟨Or.inl rfl, hc, by omega, by rw [hreg]; rfl⟩
              · exact ⟨Or.inr he, hC⟩
            · rintro ⟨rfl | he', hC⟩
              · exact Or.inl rfl
              · exact Or.inr ⟨he', hC⟩
          | err msg =>
            simp only [hstep] at hnp ⊢
            rw [List.mem_cons, ih st' e hnp, List.mem_cons]
            constructor
            · rintro (rfl | ⟨he, hC⟩)
              · exact ⟨Or.inl rfl, hc, by omega, by rw [hreg]; rfl⟩
              · exact ⟨Or.inr he, hC⟩
            · rintro ⟨rfl | he', hC⟩
              · exact Or.inl rfl
              · exact Or.inr ⟨he', hC⟩
    · simp only [Bool.not_eq_true] at hc
      simp only [hc, Bool.false_eq_true, if_false] at hnp ⊢
      rw [ih st e hnp]
      constructor
      · rintro ⟨he, hrest⟩
        exact ⟨List.mem_cons_of_mem _ he, hrest⟩
      · rintro ⟨he, h1, h2, h3⟩
        rcases List.mem_cons.mp he with rfl | he'
        · rw [hc] at h1
          cases h1
        · exact ⟨he', h1, h2, h3⟩

/-- Claim C5 (amended): provided no handler invocation panics, the
Dispatcher invokes a registered handler on an event if and only if the
transaction succeeded and is a user transaction, the event type contains
the module address, the type splits on `::` into at least three segments,
and a handler is registered under the final segment; unhandled kinds are
skipped silently and handler errors do not abort sibling events (both are
consequences of the stated equivalence holding for every event of the
transaction). -/
theorem dispatchConditionAmended (m : String) (hf : String → Option Handler)
    (st : DBState) (tx : Tx) (e : Event)
    (hnp : (processTx m hf st tx).2.2 = none) :
    e ∈ (processTx m hf st tx).2.1 ↔
      tx.success = true ∧ tx.txType = "user_transaction" ∧ e ∈ tx.events ∧
      goContains e.type m = true ∧ 3 ≤ (goSplitColons e.type).length ∧
      (hf (eventNameOf e.type)).isSome = true := by
  unfold processTx at hnp ⊢
  by_cases hg : (!tx.success || tx.txType != "user_transaction") = true
  · rw [if_pos hg]
    simp only [List.not_mem_nil, false_iff]
    rintro ⟨h1, h2, -⟩
    simp [h1, h2] at hg
  · rw [if_neg hg] at hnp ⊢
    have hg' : tx.success = true ∧ tx.txType = "user_transaction" := by
      simp only [Bool.or_eq_true, not_or, Bool.not_eq_true, Bool.not_eq_true',
        bne_iff_ne, ne_eq, not_not, Bool.not_eq_false] at hg
      exact hg
    rw [processEvents_mem m hf tx tx.events st e hnp]
    constructor
    · rintro ⟨he, hC⟩
      exact ⟨hg'.1, hg'.2, he, hC⟩
    · rintro ⟨-, -, he, hC⟩
      exact ⟨he, hC⟩

/-- Counterexample to C5 as stated: a successful user transaction with an
event whose type contains the module address and whose final segment has a
registered handler, yet the type has only two segments, so `processTx`
skips it and invokes nothing — the claimed equivalence omits the
three-segment requirement. -/
theorem dispatchConditionCounterexample :
    txShort.success = true ∧ txShort.txType = "user_transaction" ∧
    shortTypeEvent ∈ txShort.events ∧
    goContains shortTypeEvent.type modAddr = true ∧
    (defaultHandlerFor (eventNameOf shortTypeEvent.type)).isSome = true ∧
    (processTx modAddr defaultHandlerFor dbEmpty txShort).2.1 = [] :=
  ⟨rfl, rfl, by decide, by decide, by decide, by decide⟩

/-- Witness for the amended C5 at a concrete mint transaction. -/
theorem dispatchConditionAmended_witness :
    (processTx modAddr defaultHandlerFor dbEmpty tx9).2.2 = none ∧
    (mintEvent9 ∈ (processTx modAddr defaultHandlerFor dbEmpty tx9).2.1 ↔
      tx9.success = true ∧ tx9.txType = "user_transaction" ∧ mintEvent9 ∈ tx9.events ∧
      goContains mintEvent9.type modAddr = true ∧
      3 ≤ (goSplitColons mintEvent9.type).length ∧
      (defaultHandlerFor (eventNameOf mintEvent9.type)).isSome = true) :=
  ⟨by decide, dispatchConditionAmended modAddr defaultHandlerFor dbEmpty tx9 mintEvent9 (by decide)⟩

/-! Lemmas about the poll loop. -/

/-- Every batch has a positive limit, so the loop always advances. -/
theorem pollLimit_pos (start e : Nat) : 1 ≤ pollLimit start e := by
  unfold pollLimit
  split <;> omega

/-- Fuel adequacy: any fuel of at least `e + 1 - start` computes the same
range list, so `batchRanges` is the unique fixed point of the loop body —
the fuel parameter is an artifact of the embedding, not of the loop. -/
theorem batchRangesAux_canon (e : Nat) :
    ∀ fuel start, e + 1 - start ≤ fuel →
      batchRangesAux fuel start e = batchRanges start e := by
  intro fuel
  induction fuel using Nat.strong_induction_on with
  | _ fuel ih =>
    match fuel with
    | 0 =>
      intro start hle
      have h0 : e + 1 - start = 0 := by omega
      rw [batchRanges, h0]
    | f + 1 =>
      intro start hle
      by_cases hs : start ≤ e
      · have hpos := pollLimit_pos start e
        have h1 : e + 1 - start = (e - start) + 1 := by omega
        rw [batchRanges, h1]
        simp only [batchRangesAux, if_pos hs]
        have ha := ih f (by omega) (start + pollLimit start e) (by omega)
        have hb := ih (e - start) (by omega) (start + pollLimit start e) (by omega)
        rw [ha, hb]
      · have h0 : e + 1 - start = 0 := by omega
        rw [batchRanges, h0]
        simp [batchRangesAux, hs]

/-- The first batch of a nonempty range starts at `start`. -/
theorem batchRanges_head {s e : Nat} (h : s ≤ e) :
    (batchRanges s e).head? = some (s, pollLimit s e) := by
  have h1 : e + 1 - s = (e - s) + 1 := by omega
  rw [batchRanges, h1]
  simp [batchRangesAux, h]

/-- One poll tick never decreases the in-memory checkpoint or its
persisted copy, and preserves `persisted ≤ lastVersion`. -/
theorem pollTick_mono (m : String) (hf : String → Option Handler)
    (ps : PollState) (inp : TickInput) (hinv : ps.persisted ≤ ps.lastVersion) :
    ps.lastVersion ≤ (pollTick m hf ps inp).1.lastVersion ∧
    ps.persisted ≤ (pollTick m hf ps inp).1.persisted ∧
    (pollTick m hf ps inp).1.persisted ≤ (pollTick m hf ps inp).1.lastVersion := by
  unfold pollTick
  cases hl : inp.latest with
  | error u => exact ⟨Nat.le_refl _, Nat.le_refl _, hinv⟩
  | ok latest =>
    by_cases hle : latest ≤ ps.lastVersion
    · simp only [if_pos hle]
      exact ⟨Nat.le_refl _, Nat.le_refl _, hinv⟩
    · simp only [if_neg hle]
      rcases hr : runRanges m hf inp.fetch ps.db (batchRanges (ps.lastVersion + 1) latest)
        with ⟨db', res⟩
      cases res with
      | ok =>
        by_cases hs : inp.saveOk = true <;> simp only [hs] <;> simp <;> omega
      | ledgerInfoFailed => exact ⟨Nat.le_refl _, Nat.le_refl _, hinv⟩
      | fetchFailed => exact ⟨Nat.le_refl _, Nat.le_refl _, hinv⟩
      | panicked msg => exact ⟨Nat.le_refl _, Nat.le_refl _, hinv⟩

/-- Checkpoint monotonicity over any sequence of ticks. -/
theorem runTicks_mono (m : String) (hf : String → Option Handler) :
    ∀ (inps : List TickInput) (ps : PollState), ps.persisted ≤ ps.lastVersion →
      ps.lastVersion ≤ (runTicks m hf ps inps).lastVersion ∧
      ps.persisted ≤ (runTicks m hf ps inps).persisted ∧
      (runTicks m hf ps inps).persisted ≤ (runTicks m hf ps inps).lastVersion := by
  intro inps
  induction inps with
  | nil => intro ps hinv; exact ⟨Nat.le_refl _, Nat.le_refl _, hinv⟩
  | cons i is ih =>
    intro ps hinv
    have hstep := pollTick_mono m hf ps i hinv
    rcases hp : pollTick m hf ps i with ⟨ps', res⟩
    rw [hp] at hstep
    cases res with
    | panicked msg =>
      simp only [runTicks, hp]
      exact hstep
    | ok =>
      simp only [runTicks, hp]
      have := ih ps' hstep.2.2
      exact ⟨Nat.le_trans hstep.1 this.1, Nat.le_trans hstep.2.1 this.2.1, this.2.2⟩
    | ledgerInfoFailed =>
      simp only [runTicks, hp]
      have := ih ps' hstep.2.2
      exact ⟨Nat.le_trans hstep.1 this.1, Nat.le_trans hstep.2.1 this.2.1, this.2.2⟩
    | fetchFailed =>
      simp only [runTicks, hp]
      have := ih ps' hstep.2.2
      exact ⟨Nat.le_trans hstep.1 this.1, Nat.le_trans hstep.2.1 this.2.1, this.2.2⟩

/-- A tick that observes `L` beyond the checkpoint and returns nil without
a fetch failure or panic sets the in-memory checkpoint to `L`, and the
persisted copy too when the save succeeds. -/
theorem pollTick_success (m : String) (hf : String → Option Handler)
    (ps : PollState) (inp : TickInput) (L : Nat)
    (hL : inp.latest = Except.ok L) (hlt : ps.lastVersion < L)
    (hok : (pollTick m hf ps inp).2 = PollResult.ok) :
    (pollTick m hf ps inp).1.lastVersion = L ∧
    (inp.saveOk = true → (pollTick m hf ps inp).1.persisted = L) := by
  simp only [pollTick, hL] at hok ⊢
  rw [if_neg (Nat.not_le.mpr hlt)] at hok ⊢
  rcases hr : runRanges m hf inp.fetch ps.db (batchRanges (ps.lastVersion + 1) L)
    with ⟨db', res⟩
  rw [hr] at hok
  clear hr
  cases res with
  | ok =>
    refine ⟨rfl, fun hs => ?_⟩
    simp [hs]
  | ledgerInfoFailed => cases hok
  | fetchFailed => cases hok
  | panicked msg => cases hok

/-- Claim C2 (amended): over any sequence of poll ticks neither the
in-memory checkpoint nor its persisted copy ever decreases (given the
startup invariant `persisted ≤ lastVersion`); and a tick that observes a
latest version `L` beyond the checkpoint and completes without a fetch
failure or panic sets the in-memory checkpoint to `L` — the persisted copy
reaches `L` only when the `saveLastVersion` upsert also succeeds, since a
save failure is logged and swallowed. -/
theorem checkpointMonotoneAmended (m : String) (hf : String → Option Handler) :
    (∀ (ps : PollState) (inps : List TickInput), ps.persisted ≤ ps.lastVersion →
        ps.lastVersion ≤ (runTicks m hf ps inps).lastVersion ∧
        ps.persisted ≤ (runTicks m hf ps inps).persisted) ∧
    (∀ (ps : PollState) (inp : TickInput) (L : Nat),
        inp.latest = Except.ok L → ps.lastVersion < L →
        (pollTick m hf ps inp).2 = PollResult.ok →
        (pollTick m hf ps inp).1.lastVersion = L ∧
        (inp.saveOk = true → (pollTick m hf ps inp).1.persisted = L)) :=
  ⟨fun ps inps hinv =>
    ⟨(runTicks_mono m hf inps ps hinv).1, (runTicks_mono m hf inps ps hinv).2.1⟩,
   fun ps inp L hL hlt hok => pollTick_success m hf ps inp L hL hlt hok⟩

/-- Counterexample to C2 as stated: a tick in which every batch fetch
succeeds but the checkpoint save fails returns nil with the in-memory
checkpoint advanced to the observed latest version 1, while the persisted
copy of the checkpoint is left at 0 — so "the checkpoint (lastVersion, and
its persisted copy) equals the latest observed version" fails for the
persisted copy. -/
theorem checkpointCounterexample :
    (pollTick modAddr defaultHandlerFor psZero tickSaveFail).2 = PollResult.ok ∧
    (pollTick modAddr defaultHandlerFor psZero tickSaveFail).1.lastVersion = 1 ∧
    (pollTick modAddr defaultHandlerFor psZero tickSaveFail).1.persisted ≠ 1 :=
  ⟨by decide, by decide, by decide⟩

/-- Witness for the amended C2 at a concrete fully-successful tick. -/
theorem checkpointMonotoneAmended_witness :
    psZero.persisted ≤ psZero.lastVersion ∧
    psZero.lastVersion ≤ (runTicks modAddr defaultHandlerFor psZero [tickSaveOk]).lastVersion ∧
    tickSaveOk.latest = Except.ok 1 ∧ psZero.lastVersion < 1 ∧
    (pollTick modAddr defaultHandlerFor psZero tickSaveOk).2 = PollResult.ok ∧
    (pollTick modAddr defaultHandlerFor psZero tickSaveOk).1.lastVersion = 1 ∧
    (tickSaveOk.saveOk = true →
      (pollTick modAddr defaultHandlerFor psZero tickSaveOk).1.persisted = 1) :=
  ⟨by decide,
   ((checkpointMonotoneAmended modAddr defaultHandlerFor).1 psZero [tickSaveOk] (by decide)).1,
   rfl, by decide, by decide,
   ((checkpointMonotoneAmended modAddr defaultHandlerFor).2 psZero tickSaveOk 1 rfl
      (by decide) (by decide)).1,
   ((checkpointMonotoneAmended modAddr defaultHandlerFor).2 psZero tickSaveOk 1 rfl
      (by decide) (by decide)).2⟩

/-- Unfolding: a failing fetch stops the batch loop with the fetch error. -/
theorem runRanges_cons_err {m : String} {hf : String → Option Handler}
    {fetch : Nat → Nat → Except Unit (List Tx)} {st : DBState} {s lim : Nat}
    {rs : List (Nat × Nat)} (h : fetch s lim = Except.error ()) :
    runRanges m hf fetch st ((s, lim) :: rs) = (st, PollResult.fetchFailed) := by
  simp only [runRanges, h]

/-- Unfolding: a fetched batch that processes without a panic lets the
loop continue on the remaining ranges. -/
theorem runRanges_cons_step {m : String} {hf : String → Option Handler}
    {fetch : Nat → Nat → Except Unit (List Tx)} {st st2 : DBState} {s lim : Nat}
    {rs : List (Nat × Nat)} {txs : List Tx} (h : fetch s lim = Except.ok txs)
    (hpb : processBatch m hf st txs = (st2, none)) :
    runRanges m hf fetch st ((s, lim) :: rs) = runRanges m hf fetch st2 rs := by
  simp only [runRanges, h, hpb]

/-- Unfolding: a panic while processing a fetched batch stops the loop. -/
theorem runRanges_cons_panic {m : String} {hf : String → Option Handler}
    {fetch : Nat → Nat → Except Unit (List Tx)} {st st2 : DBState} {s lim : Nat}
    {rs : List (Nat × Nat)} {txs : List Tx} {msg : String}
    (h : fetch s lim = Except.ok txs)
    (hpb : processBatch m hf st txs = (st2, some msg)) :
    runRanges m hf fetch st ((s, lim) :: rs) = (st2, PollResult.panicked msg) := by
  simp only [runRanges, h, hpb]

/-- Splitting the batch loop after a successfully processed prefix. -/
theorem runRanges_append_ok (m : String) (hf : String → Option Handler)
    (fetch : Nat → Nat → Except Unit (List Tx)) :
    ∀ (rs1 : List (Nat × Nat)) (st : DBState) (rs2 : List (Nat × Nat)),
      (runRanges m hf fetch st rs1).2 = PollResult.ok →
      runRanges m hf fetch st (rs1 ++ rs2) =
        runRanges m hf fetch (runRanges m hf fetch st rs1).1 rs2 := by
  intro rs1
  induction rs1 with
  | nil => intro st rs2 _; rfl
  | cons p rest ih =>
    intro st rs2 hok
    rcases p with ⟨s, lim⟩
    cases hfe : fetch s lim with
    | error u =>
      cases u
      rw [runRanges_cons_err hfe] at hok
      simp at hok
    | ok txs =>
      rcases hpb : processBatch m hf st txs with ⟨st2, pn⟩
      cases pn with
      | some msg =>
        rw [runRanges_cons_panic hfe hpb] at hok
        simp at hok
      | none =>
        rw [runRanges_cons_step hfe hpb] at hok
        rw [List.cons_append, runRanges_cons_step hfe hpb, runRanges_cons_step hfe hpb]
        exact ih st2 rs2 hok

/-- Claim C3: when a batch fetch fails during a tick, the tick returns the
fetch error at once, both checkpoint copies are left unchanged, and any
later tick recomputes its batch ranges from the same unchanged checkpoint,
starting again at `checkpoint + 1` — the failed range is retried. -/
theorem fetchFailureRetry (m : String) (hf : String → Option Handler)
    (ps : PollState) (inp : TickInput) (L : Nat)
    (hL : inp.latest = Except.ok L) (hlt : ps.lastVersion < L)
    (hfail : ∃ rs1 r rs2, batchRanges (ps.lastVersion + 1) L = rs1 ++ r :: rs2 ∧
        (runRanges m hf inp.fetch ps.db rs1).2 = PollResult.ok ∧
        inp.fetch r.1 r.2 = Except.error ()) :
    (pollTick m hf ps inp).2 = PollResult.fetchFailed ∧
    (pollTick m hf ps inp).1.lastVersion = ps.lastVersion ∧
    (pollTick m hf ps inp).1.persisted = ps.persisted ∧
    ∀ L2, ps.lastVersion < L2 →
      batchRanges ((pollTick m hf ps inp).1.lastVersion + 1) L2 =
        batchRanges (ps.lastVersion + 1) L2 ∧
      (batchRanges ((pollTick m hf ps inp).1.lastVersion + 1) L2).head? =
        some (ps.lastVersion + 1, pollLimit (ps.lastVersion + 1) L2) := by
  obtain ⟨rs1, r, rs2, hsplit, hok1, herr⟩ := hfail
  have hrun : runRanges m hf inp.fetch ps.db (batchRanges (ps.lastVersion + 1) L) =
      ((runRanges m hf inp.fetch ps.db rs1).1, PollResult.fetchFailed) := by
    rw [hsplit, runRanges_append_ok m hf inp.fetch rs1 ps.db (r :: rs2) hok1]
    rcases r with ⟨s, lim⟩
    simp only [runRanges]
    rw [herr]
  have hres : pollTick m hf ps inp =
      ({ ps with db := (runRanges m hf inp.fetch ps.db rs1).1 },
        PollResult.fetchFailed) := by
    simp only [pollTick, hL]
    rw [if_neg (Nat.not_le.mpr hlt), hrun]
  rw [hres]
  exact ⟨rfl, rfl, rfl, fun L2 h2 => ⟨rfl, batchRanges_head (Nat.succ_le_of_lt h2)⟩⟩

/-- Witness for C3: a tick whose first batch fetch fails leaves checkpoint
0 in place and errors out. -/
theorem fetchFailureRetry_witness :
    tickFetchFail.latest = Except.ok 1 ∧ psZero.lastVersion < 1 ∧
    (pollTick modAddr defaultHandlerFor psZero tickFetchFail).2 = PollResult.fetchFailed ∧
    (pollTick modAddr defaultHandlerFor psZero tickFetchFail).1.lastVersion =
      psZero.lastVersion ∧
    (pollTick modAddr defaultHandlerFor psZero tickFetchFail).1.persisted =
      psZero.persisted ∧
    (batchRanges ((pollTick modAddr defaultHandlerFor psZero tickFetchFail).1.lastVersion + 1) 1).head? =
      some (psZero.lastVersion + 1, pollLimit (psZero.lastVersion + 1) 1) :=
  ⟨rfl, by decide,
   (fetchFailureRetry modAddr defaultHandlerFor psZero tickFetchFail 1 rfl (by decide)
      ⟨[], (1, 1), [], by decide, rfl, rfl⟩).1,
   (fetchFailureRetry modAddr defaultHandlerFor psZero tickFetchFail 1 rfl (by decide)
      ⟨[], (1, 1), [], by decide, rfl, rfl⟩).2.1,
   (fetchFailureRetry modAddr defaultHandlerFor psZero tickFetchFail 1 rfl (by decide)
      ⟨[], (1, 1), [], by decide, rfl, rfl⟩).2.2.1,
   ((fetchFailureRetry modAddr defaultHandlerFor psZero tickFetchFail 1 rfl (by decide)
      ⟨[], (1, 1), [], by decide, rfl, rfl⟩).2.2.2 1 (by decide)).2⟩

/-- In the absence of a panic, the transaction loop folds every
transaction of the batch through the dispatcher in order — a handler error
on one transaction never removes a later (or earlier) transaction from the
fold. -/
theorem processBatch_foldl (m : String) (hf : String → Option Handler) :
    ∀ (txs : List Tx) (st : DBState), (processBatch m hf st txs).2 = none →
      processBatch m hf st txs =
        (txs.foldl (fun s tx => (processTx m hf s tx).1) st, none) := by
  intro txs
  induction txs with
  | nil => intro st _; rfl
  | cons tx rest ih =>
    intro st hnp
    simp only [processBatch] at hnp ⊢
    rcases hpt : processTx m hf st tx with ⟨st', tr, pn⟩
    rw [hpt] at hnp
    cases pn with
    | some msg => simp at hnp
    | none =>
      simp only [hpt, List.foldl_cons]
      exact ih st' hnp

/-- Claim C4: an error returned by a handler is invisible to the control
flow — every transaction of a fetched batch is still folded through the
dispatcher (so every other transaction's activity rows are persisted
exactly as they would have been), and a tick whose fetches succeed and
whose processing does not panic still returns nil and advances the
checkpoint to the observed latest version. -/
theorem handlerErrorIsolation (m : String) (hf : String → Option Handler) :
    (∀ (st : DBState) (txs : List Tx), (processBatch m hf st txs).2 = none →
        processBatch m hf st txs =
          (txs.foldl (fun s tx => (processTx m hf s tx).1) st, none)) ∧
    (∀ (ps : PollState) (inp : TickInput) (L : Nat),
        inp.latest = Except.ok L → ps.lastVersion < L →
        (runRanges m hf inp.fetch ps.db (batchRanges (ps.lastVersion + 1) L)).2 =
          PollResult.ok →
        (pollTick m hf ps inp).2 = PollResult.ok ∧
        (pollTick m hf ps inp).1.lastVersion = L) := by
  refine ⟨fun st txs hnp => processBatch_foldl m hf txs st hnp, fun ps inp L hL hlt hrr => ?_⟩
  simp only [pollTick, hL]
  rw [if_neg (Nat.not_le.mpr hlt)]
  rcases hr : runRanges m hf inp.fetch ps.db (batchRanges (ps.lastVersion + 1) L)
    with ⟨db', res⟩
  rw [hr] at hrr
  cases hrr
  exact ⟨rfl, rfl⟩

/-- Witness for C4: in a three-transaction batch whose middle transaction
is handled by an always-erroring handler, both other transactions' BUY
rows are persisted and the tick completes, advancing the checkpoint to 3. -/
theorem handlerErrorIsolation_witness :
    (processBatch modAddr testHandlerFor dbEmpty batchC4).2 = none ∧
    processBatch modAddr testHandlerFor dbEmpty batchC4 =
      (batchC4.foldl (fun s tx => (processTx modAddr testHandlerFor s tx).1) dbEmpty, none) ∧
    hasTxHash (processBatch modAddr testHandlerFor dbEmpty batchC4).1.activities tx9.hash = true ∧
    hasTxHash (processBatch modAddr testHandlerFor dbEmpty batchC4).1.activities txB.hash = true ∧
    (processTx modAddr testHandlerFor (processTx modAddr testHandlerFor dbEmpty tx9).1 txFail).2.1 =
      [failEvent] ∧
    tickC4.latest = Except.ok 3 ∧ psZero.lastVersion < 3 ∧
    (pollTick modAddr testHandlerFor psZero tickC4).2 = PollResult.ok ∧
    (pollTick modAddr testHandlerFor psZero tickC4).1.lastVersion = 3 :=
  ⟨by decide,
   (handlerErrorIsolation modAddr testHandlerFor).1 dbEmpty batchC4 (by decide),
   by decide, by decide, by decide, rfl, by decide,
   ((handlerErrorIsolation modAddr testHandlerFor).2 psZero tickC4 3 rfl (by decide) (by decide)).1,
   ((handlerErrorIsolation modAddr testHandlerFor).2 psZero tickC4 3 rfl (by decide) (by decide)).2⟩

/-- Claim C6 (the code contradicts the spec's degrade-to-zero intent):
the extraction does fall back to the zero value for a missing
`market_address`, but the handlers then slice `marketAddress[:10]` in
their log lines, which panics on the empty string — a mint, burn or
resolution event with a missing or empty `market_address` aborts instead
of running to completion. For mint and burn the insert before the log
still lands; the resolution handler panics before its update. -/
theorem malformedPayloadPanics :
    assertString mintEventNoMarket.data "market_address" = "" ∧
    (handleSharesMinted dbEmpty mintEventNoMarket txMalformed).2 =
      HandlerResult.panicked "slice bounds out of range" ∧
    (handleSharesBurned dbEmpty burnEventNoMarket txMalformed).2 =
      HandlerResult.panicked "slice bounds out of range" ∧
    (handleMarketResolved dbEmpty resolveEventNoMarket txMalformed).2 =
      HandlerResult.panicked "slice bounds out of range" ∧
    (processTx modAddr defaultHandlerFor dbEmpty txMalformed).2.2 =
      some "slice bounds out of range" ∧
    hasTxHash (handleSharesMinted dbEmpty mintEventNoMarket txMalformed).1.activities
      txMalformed.hash = true :=
  ⟨by decide, by decide, by decide, by decide, by decide, by decide⟩

/-- Claim C7 (the code contradicts its own round-robin comment):
`GetNextNoditKey` never increments the cursor, so four successive Nodit
acquisitions from a two-credential pool all return the first key (claimed
fairness would give each key 2 ± 1 selections), and since the cursor is
shared with the Aptos pool, a single Aptos acquisition changes which Nodit
key is selected. -/
theorem noditRotationStuck :
    noditKeySeq rotator7 [0, 1000000000, 2000000000, 3000000000] =
      ["k1", "k1", "k1", "k1"] ∧
    (noditKeySeq rotator7 [0, 1000000000, 2000000000, 3000000000]).count "k2" = 0 ∧
    (getNextNoditKey rotator7 0).1.currentIdx = rotator7.currentIdx ∧
    (getNextNoditKey rotatorMix 0).2.1 = "k1" ∧
    (getNextNoditKey (getNextAptosKey rotatorMix 0).1 1000000000).2.1 = "k2" :=
  ⟨by decide, by decide, by decide, by decide, by decide⟩

/-- The return-time formula of the shared acquisition body. -/
theorem acquireFrom_ret (keys : List String) (idx : Nat)
    (lastUsed : List (String × Nat)) (minDelay now : Nat) :
    (acquireFrom keys idx lastUsed minDelay now).2 =
      match lastUsed.lookup (acquireFrom keys idx lastUsed minDelay now).1 with
      | some last => if now - last < minDelay then last + minDelay else now
      | none => now := rfl

/-- Looking up the key just written into the last-used map returns the
written time. -/
theorem lookup_updateAssoc (mp : List (String × Nat)) (k : String) (v : Nat) :
    (updateAssoc mp k v).lookup k = some v := by
  induction mp with
  | nil => simp [updateAssoc, List.lookup]
  | cons p rest ih =>
    rcases p with ⟨k', v'⟩
    by_cases h : k' = k
    · simp [updateAssoc, h, List.lookup]
    · simp only [updateAssoc, beq_iff_eq, if_neg h, List.lookup]
      have h2 : (k == k') = false := by
        simp [beq_iff_eq]
        exact fun hk => h hk.symm
      rw [h2]
      exact ih

/-- A single-element pool always selects its only key. -/
theorem acquireFrom_singleton (k : String) (idx : Nat)
    (lastUsed : List (String × Nat)) (minDelay now : Nat) :
    (acquireFrom [k] idx lastUsed minDelay now).1 = k := by
  simp [acquireFrom, Nat.mod_one]

/-- Arithmetic of the throttling sleep: starting from a call time no
earlier than the previous return time `t`, the next return time is at
least `t + minDelay`. -/
theorem throttleGap (t now2 md : Nat) (ht : t ≤ now2) :
    t + md ≤ if now2 - t < md then t + md else now2 := by
  split <;> omega

/-- Claim C8: when the chosen credential was last used less than
`minDelay` ago, the acquisition returns only once `minDelay` has elapsed
since that use, and records its return time as the credential's new
last-used time (both getters); consequently, on a pool of size one, two
consecutive acquisitions return at least `minDelay` apart. -/
theorem acquireThrottling :
    (∀ (r : APIKeyRotator) (now : Nat), r.aptosKeys.length ≠ 0 →
      (∀ last, r.lastUsed.lookup (getNextAptosKey r now).2.1 = some last →
          now - last < r.minDelay →
          (getNextAptosKey r now).2.2 = last + r.minDelay) ∧
      (getNextAptosKey r now).1.lastUsed.lookup (getNextAptosKey r now).2.1 =
        some (getNextAptosKey r now).2.2) ∧
    (∀ (r : APIKeyRotator) (now : Nat), r.noditKeys.length ≠ 0 →
      (∀ last, r.lastUsed.lookup (getNextNoditKey r now).2.1 = some last →
          now - last < r.minDelay →
          (getNextNoditKey r now).2.2 = last + r.minDelay) ∧
      (getNextNoditKey r now).1.lastUsed.lookup (getNextNoditKey r now).2.1 =
        some (getNextNoditKey r now).2.2) ∧
    (∀ (r : APIKeyRotator) (k : String) (now1 now2 : Nat), r.aptosKeys = [k] →
      (getNextAptosKey r now1).2.2 ≤ now2 →
      (getNextAptosKey r now1).2.2 + r.minDelay ≤
        (getNextAptosKey (getNextAptosKey r now1).1 now2).2.2) ∧
    (∀ (r : APIKeyRotator) (k : String) (now1 now2 : Nat), r.noditKeys = [k] →
      (getNextNoditKey r now1).2.2 ≤ now2 →
      (getNextNoditKey r now1).2.2 + r.minDelay ≤
        (getNextNoditKey (getNextNoditKey r now1).1 now2).2.2) := by
  refine ⟨?_, ?_, ?_, ?_⟩
  · intro r now hlen
    constructor
    · intro last hlk hdelay
      simp only [getNextAptosKey, if_neg hlen] at hlk ⊢
      rw [acquireFrom_ret]
      simp only [hlk]
      rw [if_pos hdelay]
    · simp only [getNextAptosKey, if_neg hlen]
      exact lookup_updateAssoc _ _ _
  · intro r now hlen
    constructor
    · intro last hlk hdelay
      simp only [getNextNoditKey, if_neg hlen] at hlk ⊢
      rw [acquireFrom_ret]
      simp only [hlk]
      rw [if_pos hdelay]
    · simp only [getNextNoditKey, if_neg hlen]
      exact lookup_updateAssoc _ _ _
  · intro r k now1 now2 hpool hle
    obtain ⟨ak, nk, ci, lu, md⟩ := r
    replace hpool : ak = [k] := hpool
    subst hpool
    cases hlu : List.lookup k lu with
    | none =>
      simp [getNextAptosKey, acquireFrom, Nat.mod_one, lookup_updateAssoc, hlu] at hle ⊢
      exact throttleGap _ _ _ hle
    | some last0 =>
      simp [getNextAptosKey, acquireFrom, Nat.mod_one, lookup_updateAssoc, hlu] at hle ⊢
      exact throttleGap _ _ _ hle
  · intro r k now1 now2 hpool hle
    obtain ⟨ak, nk, ci, lu, md⟩ := r
    replace hpool : nk = [k] := hpool
    subst hpool
    cases hlu : List.lookup k lu with
    | none =>
      simp [getNextNoditKey, acquireFrom, Nat.mod_one, lookup_updateAssoc, hlu] at hle ⊢
      exact throttleGap _ _ _ hle
    | some last0 =>
      simp [getNextNoditKey, acquireFrom, Nat.mod_one, lookup_updateAssoc, hlu] at hle ⊢
      exact throttleGap _ _ _ hle

/-- Witness for C8 on a single-credential Nodit pool: two consecutive
acquisitions are at least `minDelay` apart, and the return time is
recorded as the credential's last use. -/
theorem acquireThrottling_witness :
    rotator8.noditKeys = ["k1"] ∧
    (getNextNoditKey rotator8 0).2.2 ≤ 100 ∧
    (getNextNoditKey rotator8 0).2.2 + rotator8.minDelay ≤
      (getNextNoditKey (getNextNoditKey rotator8 0).1 100).2.2 ∧
    rotator8.noditKeys.length ≠ 0 ∧
    (getNextNoditKey rotator8 0).1.lastUsed.lookup (getNextNoditKey rotator8 0).2.1 =
      some (getNextNoditKey rotator8 0).2.2 :=
  ⟨rfl, by decide,
   acquireThrottling.2.2.2 rotator8 "k1" 0 100 rfl (by decide),
   by decide,
   (acquireThrottling.2.1 rotator8 0 (by decide)).2⟩

/-- Claim C9: the end-to-end mint example — `apt_amount_in="100000000"`,
`shares_out="2000000"`, `is_yes=true` — persists exactly one BUY/YES
activity with amount 2 and value 1: the handler scales `apt_amount_in` by
1e8 and `shares_out` by 1e6, and no panic occurs. -/
theorem mintEndToEnd :
    (processTx modAddr defaultHandlerFor dbEmpty tx9).1.activities =
      [{ txHash := "0xhash9", marketAddress := "0xmarket0001",
         userAddress := "0xuser000001", action := "BUY", outcome := "YES",
         amount := 2, totalValue := 1, timestamp := "2024-01-01T00:00:00Z" }] ∧
    (processTx modAddr defaultHandlerFor dbEmpty tx9).2.2 = none := by
  refine ⟨?_, by decide⟩
  have h1 : (processTx modAddr defaultHandlerFor dbEmpty tx9).1.activities =
      [mintRow mintEvent9 tx9] := rfl
  rw [h1]
  have hsh : assertString mintEvent9.data "shares_out" = "2000000" := by decide
  have hap : assertString mintEvent9.data "apt_amount_in" = "100000000" := by decide
  have hs : parseGoFloat "2000000" = 2000000 := by
    have hd : digitsToNat "2000000".data = some 2000000 := by decide
    unfold parseGoFloat
    rw [hd]
    simp
  have ha : parseGoFloat "100000000" = 100000000 := by
    have hd : digitsToNat "100000000".data = some 100000000 := by decide
    unfold parseGoFloat
    rw [hd]
    simp
  have hrow : mintRow mintEvent9 tx9 =
      { txHash := "0xhash9", marketAddress := "0xmarket0001",
        userAddress := "0xuser000001", action := "BUY", outcome := "YES",
        amount := 2, totalValue := 1, timestamp := "2024-01-01T00:00:00Z" } := by
    unfold mintRow
    rw [hsh, hap, hs, ha]
    simp only [Activity.mk.injEq]
    refine ⟨by decide, by decide, by decide, by decide, by decide, by norm_num,
      by norm_num, by decide⟩
  rw [hrow]

/-- Claim C10 (amended): the webhook envelope's transaction timestamp is
the sending wall clock truncated to whole seconds (RFC3339 renders no
sub-second part); the payload depends on the transaction only through its
hash and sender — its ledger timestamp is never passed to the webhook
client — and two sends in different whole seconds carry different
timestamps. -/
theorem webhookTimestampAmended :
    (∀ (e : Event) (tx : Tx) (now : GoTime),
        (mintWebhookSend e tx now).timestampSec = now.sec) ∧
    (∀ (e : Event) (tx tx' : Tx) (now : GoTime), tx.hash = tx'.hash →
        tx.sender = tx'.sender → mintWebhookSend e tx now = mintWebhookSend e tx' now) ∧
    (∀ (e : Event) (tx : Tx) (now now' : GoTime), now.sec ≠ now'.sec →
        (mintWebhookSend e tx now).timestampSec ≠
          (mintWebhookSend e tx now').timestampSec) := by
  refine ⟨fun e tx now => rfl, fun e tx tx' now h1 h2 => ?_, fun e tx now now' h => ?_⟩
  · simp [mintWebhookSend, sendEventPayload, h1, h2]
  · simpa [mintWebhookSend, sendEventPayload] using h

/-- Counterexample to C10 as stated: two sends of the same transaction at
distinct instants of the same wall-clock second produce identical
envelopes — in particular identical timestamps — because the RFC3339
rendering drops the sub-second part. -/
theorem webhookTimestampCounterexample :
    (⟨100, 0⟩ : GoTime) ≠ ⟨100, 500000000⟩ ∧
    mintWebhookSend mintEvent9 tx9 ⟨100, 0⟩ =
      mintWebhookSend mintEvent9 tx9 ⟨100, 500000000⟩ :=
  ⟨by decide, by decide⟩

/-- Witness for the amended C10 at concrete sends. -/
theorem webhookTimestampAmended_witness :
    tx9.hash = tx9Alt.hash ∧ tx9.sender = tx9Alt.sender ∧
    (mintWebhookSend mintEvent9 tx9 ⟨100, 0⟩).timestampSec = 100 ∧
    mintWebhookSend mintEvent9 tx9 ⟨100, 0⟩ = mintWebhookSend mintEvent9 tx9Alt ⟨100, 0⟩ ∧
    (100 : Nat) ≠ 101 ∧
    (mintWebhookSend mintEvent9 tx9 ⟨100, 0⟩).timestampSec ≠
      (mintWebhookSend mintEvent9 tx9 ⟨101, 0⟩).timestampSec :=
  ⟨rfl, rfl,
   webhookTimestampAmended.1 mintEvent9 tx9 ⟨100, 0⟩,
   webhookTimestampAmended.2.1 mintEvent9 tx9 tx9Alt ⟨100, 0⟩ rfl rfl,
   by decide,
   webhookTimestampAmended.2.2 mintEvent9 tx9 ⟨100, 0⟩ ⟨101, 0⟩ (by decide)⟩

end VeriFi
